import Mathlib

/-!
Verification of the shellfish QMRA simulation engine (src/shellfish_app.py).

The Python source is embedded shallowly:
- numpy floating-point arithmetic is idealised as real arithmetic (`ℝ`);
- `scipy.special.gammaln` is the log of the real Gamma function;
- numpy arrays are Lean lists (or index functions for broadcast grids);
- calls into the random library (`np.random.random`, `np.random.choice`,
  `np.random.binomial`, `np.random.normal`, `fisk.rvs`) are modelled by
  explicit streams of draw values standing for the values produced by the
  implicit global numpy random state: `np.random.random` is a stream of
  uniform variates transformed by the embedded code, `np.random.choice`
  a stream of indices, `np.random.binomial(1, p)` compares a uniform
  variate with `p`, and `np.random.normal` / `fisk.rvs` are streams of
  raw candidate draws (the library computation behind them is opaque);
- a possible `NaN` entry of an input array is an `Option ℝ` that is `none`;
- a raised Python exception is an `Except.error` carrying its message;
- the unbounded rejection loop of `sample_meal_size_loglogistic` takes a
  fuel bound; exhausting the fuel (`none`) stands for non-termination.
-/

namespace ShellfishQmra

/-! ### Global parameters (src/shellfish_app.py lines 41-57) -/

noncomputable def ALPHA : ℝ := 0.04

noncomputable def BETA : ℝ := 0.055

noncomputable def MHF_MEAN : ℝ := 18.5

noncomputable def PROPORTION_SUSCEPTIBLE : ℝ := 0.74

noncomputable def PR_ILLNESS_GIVEN_INFECTION : ℝ := 0.6

noncomputable def PR_ILLNESS : ℝ := PROPORTION_SUSCEPTIBLE * PR_ILLNESS_GIVEN_INFECTION

noncomputable def MEAL_SIZE_MIN : ℝ := 5.0

noncomputable def MEAL_SIZE_MAX : ℝ := 800.0

/-! ### Dose-response model (lines 63-75) -/

/-- Embedding of `scipy.special.gammaln`: log of the Gamma function. -/
noncomputable def gammaln (x : ℝ) : ℝ := Real.log (Real.Gamma x)

/-- The log-space complement computed inside `beta_binomial_infection_prob`
(lines 66-71). -/
noncomputable def log_prob_complement (dose alpha beta : ℝ) : ℝ :=
  gammaln (beta + dose) + gammaln (alpha + beta)
    - gammaln (alpha + beta + dose) - gammaln beta

/-- Embedding of `beta_binomial_infection_prob` (lines 63-75): `prob = 1 - exp(...)`,
then `prob = np.maximum(prob, 0.0)`, then `prob = np.minimum(prob, 1.0)`. -/
noncomputable def beta_binomial_infection_prob (dose alpha beta : ℝ) : ℝ :=
  min (max (1 - Real.exp (log_prob_complement dose alpha beta)) 0) 1

/-- The vectorised call: `beta_binomial_infection_prob` applied entrywise to
a dose array, with the module parameters `ALPHA`, `BETA`. -/
noncomputable def beta_binomial_infection_prob_vec (doses : List ℝ) : List ℝ :=
  doses.map (fun d => beta_binomial_infection_prob d ALPHA BETA)

/-! ### Dose discretizer (lines 78-85) -/

/-- Embedding of `discretize_dose` (lines 78-85) for one entry: `integer_part = floor dose`,
`fractional_part = dose - integer_part`, plus a `np.random.binomial(1, p)`
draw modelled by comparing the uniform variate `u` with `p`. -/
noncomputable def discretize_dose (dose u : ℝ) : ℤ :=
  ⌊dose⌋ + (if u < dose - ⌊dose⌋ then 1 else 0)

/-! ### Hockey-stick sampler (lines 115-158) -/

/-- Line 132: `h1 = 2 * 0.5 / (x50 - x0)`. -/
noncomputable def hockey_h1 (x0 x50 : ℝ) : ℝ := 2 * 0.5 / (x50 - x0)

/-- Line 139: `xp = x50 + (x100 - x50) * percentile_break`. -/
noncomputable def hockey_xp (x50 x100 percentile_break : ℝ) : ℝ :=
  x50 + (x100 - x50) * percentile_break

/-- Line 148, the branch for `u <= 0.5`:
`x = x0 + np.sqrt(u * 2 * (x50 - x0) / h1)`. -/
noncomputable def hockey_lower (x0 x50 u : ℝ) : ℝ :=
  x0 + Real.sqrt (u * 2 * (x50 - x0) / hockey_h1 x0 x50)

/-- Line 151, the branch for `0.5 < u <= percentile_break`:
`x = x50 + (u - 0.5) * (xp - x50) / (percentile_break - 0.5)`. -/
noncomputable def hockey_middle (x50 xp percentile_break u : ℝ) : ℝ :=
  x50 + (u - 0.5) * (xp - x50) / (percentile_break - 0.5)

/-- Line 154, the branch for `u > percentile_break`:
`x = xp + (u - percentile_break) * (x100 - xp) / (1 - percentile_break)`. -/
noncomputable def hockey_upper (xp x100 percentile_break u : ℝ) : ℝ :=
  xp + (u - percentile_break) * (x100 - xp) / (1 - percentile_break)

/-- The three-branch transform applied to one uniform variate `u`
(lines 144-156). -/
noncomputable def hockey_transform (x0 x50 x100 percentile_break u : ℝ) : ℝ :=
  if u ≤ 0.5 then hockey_lower x0 x50 u
  else if u ≤ percentile_break then
    hockey_middle x50 (hockey_xp x50 x100 percentile_break) percentile_break u
  else hockey_upper (hockey_xp x50 x100 percentile_break) x100 percentile_break u

/-- Embedding of `sample_hockey_stick_concentration` (lines 115-158): one uniform variate
per sample, mapped through the transform. -/
noncomputable def sample_hockey_stick_concentration (n_samples : ℕ)
    (x0 x50 x100 percentile_break : ℝ) (u : ℕ → ℝ) : List ℝ :=
  (List.range n_samples).map
    (fun k => hockey_transform x0 x50 x100 percentile_break (u k))

/-! ### Empirical-CDF resampler (lines 161-184) -/

/-- Embedding of `sample_ecdf` (lines 161-184).  A `none` observation is a `NaN`;
line 176 removes them.  Line 178-179 raise on empty cleaned data.
`np.random.choice(data, size=n, replace=True)` is modelled by the index
stream `idx`, reduced mod the length so each draw lands in the data. -/
def sample_ecdf (dilution_data : List (Option ℝ)) (n_samples : ℕ)
    (idx : ℕ → ℕ) : Except String (List ℝ) :=
  let cleaned := dilution_data.filterMap id
  if cleaned.isEmpty then Except.error "No valid dilution data provided"
  else Except.ok ((List.range n_samples).map
    (fun k => cleaned.getD (idx k % cleaned.length) 0))

/-! ### Truncated log-logistic meal-size sampler (lines 88-102) -/

/-- The `while len(samples) < n_samples` rejection loop of
`sample_meal_size_loglogistic` (lines 96-101).  `cand i` is the `i`-th raw
`fisk.rvs` draw; a draw is kept only when it lies in
`[MEAL_SIZE_MIN, MEAL_SIZE_MAX]`.  `fuel` bounds the number of draws the
loop may make; `none` models the loop not having terminated within it. -/
noncomputable def meal_loop (cand : ℕ → ℝ) : ℕ → ℕ → ℕ → Option (List ℝ)
  | _, _, 0 => some []
  | _, 0, _ + 1 => none
  | i, fuel + 1, need + 1 =>
    if MEAL_SIZE_MIN ≤ cand i ∧ cand i ≤ MEAL_SIZE_MAX then
      (meal_loop cand (i + 1) fuel need).map (fun rest => cand i :: rest)
    else meal_loop cand (i + 1) fuel (need + 1)

/-- Embedding of `sample_meal_size_loglogistic` (lines 88-102). -/
noncomputable def sample_meal_size_loglogistic (n_samples : ℕ) (cand : ℕ → ℝ)
    (fuel : ℕ) : Option (List ℝ) :=
  meal_loop cand 0 fuel n_samples

/-! ### BAF sampler (lines 105-112) -/

/-- Embedding of `sample_baf` (lines 105-112): `normal_draws k` is the `k`-th raw
`np.random.normal(mean, std)` draw; the source floors each at `1.0`
(`np.maximum(samples, 1.0)`). -/
noncomputable def sample_baf (n_samples : ℕ) (normal_draws : ℕ → ℝ) : List ℝ :=
  (List.range n_samples).map (fun k => max (normal_draws k) 1.0)

/-! ### Simulation orchestrator (lines 187-303)

The arrays of shape `(iterations, num_people)` built by numpy broadcasting
are embedded as functions of the flat (row-major) index
`k = i * num_people + j`, matching the `.flatten()` / `.reshape(...)` pair
the source itself applies at lines 256 and 259. -/

/-- The declared inputs of `run_shellfish_qmra_advanced` (lines 187-196),
except the dilution array which is kept as a separate argument.  Note that
the signature contains no random seed or random source: every draw comes
from the implicit global numpy random state. -/
structure SiteConfig where
  site_name : String
  effluent_min : ℝ
  effluent_median : ℝ
  effluent_max : ℝ
  log_removal_wwtp : ℝ
  num_people : ℕ
  iterations : ℕ
  mode : String
  meal_size_fixed : ℝ
  mhf_fixed : ℝ
  use_hockey_stick : Bool
  use_variable_baf : Bool

/-- The values produced by the implicit global numpy random state during one
run, one stream per drawing site in the source:
`uEff` for the hockey-stick uniforms (line 144), `triEff` for the raw
`np.random.triangular` draws (line 225), `idxDil` for the
`np.random.choice` indices (line 182), `mealCand` and `mealFuel` for the
raw `fisk.rvs` draws and the rejection-loop bound (line 99), `nBaf` for the
raw `np.random.normal` draws (line 110), and `uDisc`, `uInf`, `uIll` for
the uniforms behind the `np.random.binomial(1, p)` draws of lines 83, 262
and 267. -/
structure RandomStreams where
  uEff : ℕ → ℝ
  triEff : ℕ → ℝ
  idxDil : ℕ → ℕ
  mealCand : ℕ → ℝ
  mealFuel : ℕ
  nBaf : ℕ → ℝ
  uDisc : ℕ → ℝ
  uInf : ℕ → ℝ
  uIll : ℕ → ℝ

/-- Step 1 (lines 220-225): effluent concentrations for all iterations. -/
noncomputable def effluent_conc (cfg : SiteConfig) (s : RandomStreams) : List ℝ :=
  if cfg.use_hockey_stick then
    sample_hockey_stick_concentration cfg.iterations cfg.effluent_min
      cfg.effluent_median cfg.effluent_max 0.95 s.uEff
  else (List.range cfg.iterations).map s.triEff

/-- Step 2 (line 228): `treated_conc = effluent_conc / (10 ** log_removal_wwtp)`. -/
noncomputable def treated_conc (cfg : SiteConfig) (s : RandomStreams) : List ℝ :=
  (effluent_conc cfg s).map (fun c => c / (10 : ℝ) ^ cfg.log_removal_wwtp)

/-- Step 4 (line 234): `site_conc = treated_conc / dilution_sampled`,
one value per iteration `i`. -/
noncomputable def site_conc (cfg : SiteConfig) (s : RandomStreams)
    (dilution_sampled : List ℝ) (i : ℕ) : ℝ :=
  (treated_conc cfg s).getD i 0 / dilution_sampled.getD i 0

/-- Step 5, meal sizes (lines 237-247): in advanced mode one log-logistic
draw per (iteration, person) cell; in simple mode the fixed meal size
broadcast to the whole grid.  `none` only when the advanced-mode rejection
loop fails to terminate within its fuel. -/
noncomputable def meal_sizes (cfg : SiteConfig) (s : RandomStreams) :
    Option (ℕ → ℝ) :=
  if cfg.mode = "advanced" then
    (sample_meal_size_loglogistic (cfg.iterations * cfg.num_people) s.mealCand
      s.mealFuel).map (fun l k => l.getD k 0)
  else some (fun _ => cfg.meal_size_fixed)

/-- Step 5, BAF (lines 241-248): variable only in advanced mode with
`use_variable_baf`; otherwise `np.full(..., mhf_fixed)`. -/
noncomputable def bafs (cfg : SiteConfig) (s : RandomStreams) (k : ℕ) : ℝ :=
  if cfg.mode = "advanced" ∧ cfg.use_variable_baf then
    (sample_baf (cfg.iterations * cfg.num_people) s.nBaf).getD k 0
  else cfg.mhf_fixed

/-- Step 6 (lines 251-253):
`doses_continuous = site_conc[:, None] * (meal_sizes / 1000) * bafs`,
at flat cell `k` of row `k / num_people`. -/
noncomputable def doses_continuous (cfg : SiteConfig) (s : RandomStreams)
    (dil : List ℝ) (meal : ℕ → ℝ) (k : ℕ) : ℝ :=
  site_conc cfg s dil (k / cfg.num_people) * (meal k / 1000) * bafs cfg s k

/-- Step 7 (line 256): discretize all doses. -/
noncomputable def doses_discrete (cfg : SiteConfig) (s : RandomStreams)
    (dil : List ℝ) (meal : ℕ → ℝ) (k : ℕ) : ℤ :=
  discretize_dose (doses_continuous cfg s dil meal k) (s.uDisc k)

/-- Step 8 (line 259): infection probability for all discretized doses. -/
noncomputable def p_infection (cfg : SiteConfig) (s : RandomStreams)
    (dil : List ℝ) (meal : ℕ → ℝ) (k : ℕ) : ℝ :=
  beta_binomial_infection_prob ((doses_discrete cfg s dil meal k : ℤ) : ℝ)
    ALPHA BETA

/-- Step 9 (line 262): `infected = np.random.binomial(1, p_infection)`. -/
noncomputable def infected (cfg : SiteConfig) (s : RandomStreams)
    (dil : List ℝ) (meal : ℕ → ℝ) (k : ℕ) : ℕ :=
  if s.uInf k < p_infection cfg s dil meal k then 1 else 0

/-- Position of flat cell `k` among the infected cells, in flat (row-major)
order: the boolean indexing `ill[infected == 1] = np.random.binomial(1, p,
size=np.sum(infected))` at line 267 assigns the `r`-th fresh draw to the
`r`-th infected cell in that order. -/
noncomputable def infected_rank (cfg : SiteConfig) (s : RandomStreams)
    (dil : List ℝ) (meal : ℕ → ℝ) (k : ℕ) : ℕ :=
  ∑ m ∈ Finset.range k, infected cfg s dil meal m

/-- Step 10 (lines 266-267): `ill` is zero everywhere except at infected
cells, which get a Bernoulli `PR_ILLNESS_GIVEN_INFECTION` draw. -/
noncomputable def ill (cfg : SiteConfig) (s : RandomStreams)
    (dil : List ℝ) (meal : ℕ → ℝ) (k : ℕ) : ℕ :=
  if infected cfg s dil meal k = 1 then
    if s.uIll (infected_rank cfg s dil meal k) < PR_ILLNESS_GIVEN_INFECTION
    then 1 else 0
  else 0

/-- Step 11 (line 270): `total_infections_all = np.sum(infected, axis=1)`. -/
noncomputable def total_infections (cfg : SiteConfig) (s : RandomStreams)
    (dil : List ℝ) (meal : ℕ → ℝ) (i : ℕ) : ℕ :=
  ∑ j ∈ Finset.range cfg.num_people, infected cfg s dil meal (i * cfg.num_people + j)

/-- Step 11 (line 271): `total_illness_all = np.sum(ill, axis=1)`. -/
noncomputable def total_illness (cfg : SiteConfig) (s : RandomStreams)
    (dil : List ℝ) (meal : ℕ → ℝ) (i : ℕ) : ℕ :=
  ∑ j ∈ Finset.range cfg.num_people, ill cfg s dil meal (i * cfg.num_people + j)

/-- The fields of the results dict (lines 278-301) that hold the per-scenario
outcome arrays: `infections_distribution` and `illness_distribution`.  The
remaining entries are scalar summary statistics derived from these two
arrays and the inputs. -/
structure QmraResult where
  infections_distribution : List ℕ
  illness_distribution : List ℕ
  deriving DecidableEq

/-- Embedding of `run_shellfish_qmra_advanced` (lines 187-303).  The outer `Option` is
`none` only when the advanced-mode meal rejection loop does not terminate
within its fuel; `Except.error` is the `ValueError` propagated out of
`sample_ecdf` (raised at line 179, after the effluent draws of step 1 have
already been taken from the random state). -/
noncomputable def run_shellfish_qmra_advanced (cfg : SiteConfig)
    (dilution_data : List (Option ℝ)) (s : RandomStreams) :
    Option (Except String QmraResult) :=
  match sample_ecdf dilution_data cfg.iterations s.idxDil with
  | Except.error e => some (Except.error e)
  | Except.ok dil =>
    match meal_sizes cfg s with
    | none => none
    | some meal =>
      some (Except.ok
        { infections_distribution :=
            (List.range cfg.iterations).map (total_infections cfg s dil meal)
          illness_distribution :=
            (List.range cfg.iterations).map (total_illness cfg s dil meal) })

/-! ### Concrete inputs used for witnesses and counterexamples

All are simple-mode, hockey-stick runs with one iteration, one person,
`log_removal_wwtp = 0`, `meal_size_fixed = 50` and one dilution
observation equal to `1`, so the continuous dose of the single cell is
`effluent_min * (50 / 1000) * mhf_fixed` when the effluent uniform is `0`
(the lower hockey-stick branch at `u = 0` yields `effluent_min`). -/

/-- A valid configuration with zero minimum effluent: the single cell
receives dose `0`. -/
noncomputable def cfgZero : SiteConfig :=
  { site_name := "Site_Zero", effluent_min := 0, effluent_median := 1,
    effluent_max := 2, log_removal_wwtp := 0, num_people := 1, iterations := 1,
    mode := "simple", meal_size_fixed := 50, mhf_fixed := 20,
    use_hockey_stick := true, use_variable_baf := false }

/-- A configuration violating `effluent_min < effluent_median`
(`2 > 1`), otherwise valid; the single cell receives dose
`2 * (50 / 1000) * 10 = 1`. -/
noncomputable def cfgBadOrder : SiteConfig :=
  { site_name := "Site_Bad", effluent_min := 2, effluent_median := 1,
    effluent_max := 3, log_removal_wwtp := 0, num_people := 1, iterations := 1,
    mode := "simple", meal_size_fixed := 50, mhf_fixed := 10,
    use_hockey_stick := true, use_variable_baf := false }

/-- A valid configuration whose single cell receives dose
`1 * (50 / 1000) * 20 = 1`. -/
noncomputable def cfgDoseOne : SiteConfig :=
  { site_name := "Site_One", effluent_min := 1, effluent_median := 2,
    effluent_max := 3, log_removal_wwtp := 0, num_people := 1, iterations := 1,
    mode := "simple", meal_size_fixed := 50, mhf_fixed := 20,
    use_hockey_stick := true, use_variable_baf := false }

/-- A concrete state of the global random stream. -/
noncomputable def sBase : RandomStreams :=
  { uEff := fun _ => 0, triEff := fun _ => 0, idxDil := fun _ => 0,
    mealCand := fun _ => 10, mealFuel := 0, nBaf := fun _ => 0,
    uDisc := fun _ => 1/2, uInf := fun _ => 1/2, uIll := fun _ => 0 }

/-- Stream `sBase` with the infection uniform lowered to `1/10`
(below `8/19`, the infection probability at dose `1`). -/
noncomputable def sInfLow : RandomStreams :=
  { sBase with uInf := fun _ => 1/10 }

/-- Stream `sBase` with the infection uniform raised to `9/10`
(above `8/19`, the infection probability at dose `1`). -/
noncomputable def sInfHigh : RandomStreams :=
  { sBase with uInf := fun _ => 9/10 }

/-- Stream `sBase` altered only at stream positions the one-cell run never
consumes: the infection uniform changes from index `1` on. -/
noncomputable def sVariant : RandomStreams :=
  { sBase with uInf := fun k => if k = 0 then 1/2 else 9/10 }

/-! ### Helper lemmas -/

/-- At dose `0` the four `gammaln` terms cancel exactly. -/
theorem log_prob_complement_zero (alpha beta : ℝ) :
    log_prob_complement 0 alpha beta = 0 := by
  simp only [log_prob_complement, add_zero]
  ring

/-- The dose-response value at dose `0` is exactly `0`. -/
theorem beta_binomial_infection_prob_zero (alpha beta : ℝ) :
    beta_binomial_infection_prob 0 alpha beta = 0 := by
  simp only [beta_binomial_infection_prob, log_prob_complement_zero,
    Real.exp_zero, sub_self]
  norm_num

/-! ### Claims -/

/-- C10: for a dose of exactly `0`, `beta_binomial_infection_prob` returns
exactly `0`: the `gammaln` terms cancel, giving `1 - exp(0) = 0`, so an
individual with zero dose has zero infection probability. -/
theorem C10_zero_dose_zero_probability :
    beta_binomial_infection_prob 0 ALPHA BETA = 0 :=
  beta_binomial_infection_prob_zero ALPHA BETA

/-- C1: for every dose array with all entries (finite and) nonnegative,
`beta_binomial_infection_prob` returns a value in `[0, 1]` for every entry;
the clamp into `[0, 1]` is applied unconditionally on every call. -/
theorem C1_probability_in_unit_interval (doses : List ℝ)
    (hnonneg : ∀ d ∈ doses, 0 ≤ d) :
    ∀ p ∈ beta_binomial_infection_prob_vec doses, 0 ≤ p ∧ p ≤ 1 := by
  intro p hp
  simp only [beta_binomial_infection_prob_vec, List.mem_map] at hp
  obtain ⟨d, -, rfl⟩ := hp
  unfold beta_binomial_infection_prob
  constructor
  · exact le_min (le_max_right _ _) zero_le_one
  · exact min_le_right _ _

/-- Witness for C1 at the concrete dose array `[0, 5/2]`. -/
theorem C1_witness :
    0 ≤ beta_binomial_infection_prob (5/2) ALPHA BETA ∧
      beta_binomial_infection_prob (5/2) ALPHA BETA ≤ 1 := by
  refine C1_probability_in_unit_interval [0, 5/2] ?_ _ ?_
  · intro d hd
    simp only [List.mem_cons, List.not_mem_nil, or_false] at hd
    rcases hd with rfl | rfl <;> norm_num
  · simp [beta_binomial_infection_prob_vec]

/-- C5: for all `x0 < x50 < x100` and breakpoint in `(0.5, 1)`, the
hockey-stick transform is continuous at its segment boundaries: at
`u = 0.5` the lower and middle branches both yield exactly `x50`, and at
`u = percentile_break` the middle and upper branches both yield exactly
`xp = x50 + (x100 - x50) * percentile_break`. -/
theorem C5_hockey_stick_boundary_continuity (x0 x50 x100 pb : ℝ)
    (hx0 : x0 < x50) (hx1 : x50 < x100) (hpb0 : 0.5 < pb) (hpb1 : pb < 1) :
    hockey_lower x0 x50 0.5 = x50 ∧
      hockey_middle x50 (hockey_xp x50 x100 pb) pb 0.5 = x50 ∧
      hockey_middle x50 (hockey_xp x50 x100 pb) pb pb = hockey_xp x50 x100 pb ∧
      hockey_upper (hockey_xp x50 x100 pb) x100 pb pb = hockey_xp x50 x100 pb := by
  have hd : x50 - x0 ≠ 0 := sub_ne_zero.mpr hx0.ne'
  have hb : pb - 0.5 ≠ 0 := sub_ne_zero.mpr hpb0.ne'
  refine ⟨?_, ?_, ?_, ?_⟩
  · unfold hockey_lower hockey_h1
    have harg : (0.5 : ℝ) * 2 * (x50 - x0) / (2 * 0.5 / (x50 - x0))
        = (x50 - x0) ^ 2 := by
      field_simp
      ring
    rw [harg, Real.sqrt_sq (by linarith)]
    ring
  · unfold hockey_middle
    norm_num
  · unfold hockey_middle
    field_simp
  · unfold hockey_upper
    norm_num

/-- Witness for C5 at `x0 = 0`, `x50 = 1`, `x100 = 2`,
`percentile_break = 0.95`. -/
theorem C5_witness :
    hockey_lower 0 1 0.5 = 1 ∧
      hockey_middle 1 (hockey_xp 1 2 0.95) 0.95 0.5 = 1 ∧
      hockey_middle 1 (hockey_xp 1 2 0.95) 0.95 0.95 = hockey_xp 1 2 0.95 ∧
      hockey_upper (hockey_xp 1 2 0.95) 2 0.95 0.95 = hockey_xp 1 2 0.95 :=
  C5_hockey_stick_boundary_continuity 0 1 2 0.95 (by norm_num) (by norm_num)
    (by norm_num) (by norm_num)

/-- C6: `sample_ecdf` raises an input-validation error if and only if the
observation set is empty after discarding missing (`NaN`) values; otherwise
it returns exactly `n` values, each of which is a member of the cleaned
input observation set. -/
theorem C6_sample_ecdf_spec (data : List (Option ℝ)) (n : ℕ) (idx : ℕ → ℕ) :
    ((∃ e, sample_ecdf data n idx = Except.error e) ↔ data.filterMap id = [])
    ∧ ∀ l, sample_ecdf data n idx = Except.ok l →
        l.length = n ∧ ∀ x ∈ l, x ∈ data.filterMap id := by
  unfold sample_ecdf
  by_cases hc : (data.filterMap id).isEmpty
  · rw [List.isEmpty_iff] at hc
    simp [hc]
  · have hne : data.filterMap id ≠ [] := by
      simpa [List.isEmpty_iff] using hc
    have hlen : 0 < (data.filterMap id).length := List.length_pos.mpr hne
    simp only [hc, if_false, Bool.false_eq_true]
    constructor
    · simp [hne]
    · intro l hl
      obtain rfl := (Except.ok.injEq _ _).mp hl.symm
      constructor
      · simp
      · intro x hx
        simp only [List.mem_map, List.mem_range] at hx
        obtain ⟨k, -, rfl⟩ := hx
        have hmod : idx k % (data.filterMap id).length
            < (data.filterMap id).length := Nat.mod_lt _ hlen
        rw [List.getD_eq_getElem _ _ hmod]
        exact List.getElem_mem _

/-- Witness for C6 on the concrete observation set `[some 2, none]` with
`n = 3` and identity index stream: three samples, all members of the
cleaned set `[2]`. -/
theorem C6_witness :
    sample_ecdf [some (2 : ℝ), none] 3 (fun k => k) = Except.ok [2, 2, 2] ∧
      (([(2 : ℝ), 2, 2] : List ℝ).length = 3 ∧
        ∀ x ∈ ([(2 : ℝ), 2, 2] : List ℝ),
          x ∈ ([some (2 : ℝ), none] : List (Option ℝ)).filterMap id) :=
  ⟨rfl, (C6_sample_ecdf_spec [some (2 : ℝ), none] 3 (fun k => k)).2 [2, 2, 2] rfl⟩

/-- Soundness of the rejection loop of the meal-size sampler: whenever the
loop terminates it has collected exactly the requested number of samples
and every collected sample lies inside the truncation bounds. -/
theorem meal_loop_sound (cand : ℕ → ℝ) :
    ∀ fuel i need s, meal_loop cand i fuel need = some s →
      s.length = need ∧ ∀ x ∈ s, MEAL_SIZE_MIN ≤ x ∧ x ≤ MEAL_SIZE_MAX := by
  intro fuel
  induction fuel with
  | zero =>
    intro i need s h
    match need with
    | 0 =>
      simp only [meal_loop, Option.some.injEq] at h
      subst h
      simp
    | need + 1 => simp [meal_loop] at h
  | succ fuel ih =>
    intro i need s h
    match need with
    | 0 =>
      simp only [meal_loop, Option.some.injEq] at h
      subst h
      simp
    | need + 1 =>
      simp only [meal_loop] at h
      by_cases hacc : MEAL_SIZE_MIN ≤ cand i ∧ cand i ≤ MEAL_SIZE_MAX
      · rw [if_pos hacc, Option.map_eq_some'] at h
        obtain ⟨rest, hrest, rfl⟩ := h
        obtain ⟨hlen, hmem⟩ := ih (i + 1) need rest hrest
        refine ⟨by simp [hlen], ?_⟩
        intro x hx
        rcases List.mem_cons.mp hx with rfl | hx
        · exact hacc
        · exact hmem x hx
      · rw [if_neg hacc] at h
        exact ih (i + 1) (need + 1) s h

/-- C7: for every requested count `n`, whenever the truncated log-logistic
meal-size sampler returns (its rejection loop terminates), it returns
exactly `n` samples, and every returned sample `x` satisfies
`MEAL_SIZE_MIN ≤ x ≤ MEAL_SIZE_MAX` (the configured truncation bounds
`5.0` and `800.0`). -/
theorem C7_meal_size_truncation (n : ℕ) (cand : ℕ → ℝ) (fuel : ℕ)
    (s : List ℝ) (h : sample_meal_size_loglogistic n cand fuel = some s) :
    s.length = n ∧ ∀ x ∈ s, MEAL_SIZE_MIN ≤ x ∧ x ≤ MEAL_SIZE_MAX :=
  meal_loop_sound cand fuel 0 n s h

/-- Evaluation of the sampler on the constant candidate stream `10` with
fuel `2`: two accepted samples. -/
theorem sample_meal_eval_const :
    sample_meal_size_loglogistic 2 (fun _ => 10) 2 = some [10, 10] := by
  show meal_loop (fun _ => (10 : ℝ)) 0 (0 + 1 + 1) (0 + 1 + 1) = some [10, 10]
  rw [meal_loop]
  rw [if_pos (by norm_num [MEAL_SIZE_MIN, MEAL_SIZE_MAX] :
    MEAL_SIZE_MIN ≤ (fun _ => (10 : ℝ)) 0 ∧ (fun _ => (10 : ℝ)) 0 ≤ MEAL_SIZE_MAX)]
  rw [meal_loop]
  rw [if_pos (by norm_num [MEAL_SIZE_MIN, MEAL_SIZE_MAX] :
    MEAL_SIZE_MIN ≤ (fun _ => (10 : ℝ)) (0 + 1) ∧
      (fun _ => (10 : ℝ)) (0 + 1) ≤ MEAL_SIZE_MAX)]
  rw [meal_loop]
  rfl

/-- Witness for C7: the constant candidate stream `10` with fuel `2` yields
the two accepted samples `[10, 10]`, both inside `[5, 800]`. -/
theorem C7_witness :
    sample_meal_size_loglogistic 2 (fun _ => 10) 2 = some [10, 10] ∧
      (([(10 : ℝ), 10] : List ℝ).length = 2 ∧
        ∀ x ∈ ([(10 : ℝ), 10] : List ℝ),
          MEAL_SIZE_MIN ≤ x ∧ x ≤ MEAL_SIZE_MAX) :=
  ⟨sample_meal_eval_const,
    C7_meal_size_truncation 2 (fun _ => 10) 2 [10, 10] sample_meal_eval_const⟩

/-- The discretized dose, viewed as a real number, is the floor plus the
indicator of the uniform variate falling below the fractional part. -/
theorem discretize_dose_eq_indicator (d : ℝ) :
    (fun u => ((discretize_dose d u : ℤ) : ℝ))
      = fun u => (⌊d⌋ : ℝ)
          + (Set.Iio (Int.fract d)).indicator (fun _ => (1 : ℝ)) u := by
  funext u
  simp only [discretize_dose, Int.cast_add, apply_ite (fun z : ℤ => (z : ℝ)),
    Int.cast_one, Int.cast_zero, Set.indicator_apply, Set.mem_Iio, Int.fract]

/-- The indicator of `u < c` integrates to `c` over the unit interval,
for `c ∈ [0, 1]`: the Bernoulli draw succeeds with probability `c`. -/
theorem integral_indicator_Iio_unit (c : ℝ) (h0 : 0 ≤ c) (h1 : c ≤ 1) :
    ∫ u in (0:ℝ)..1, (Set.Iio c).indicator (fun _ => (1 : ℝ)) u = c := by
  rw [intervalIntegral.integral_of_le zero_le_one]
  rw [MeasureTheory.setIntegral_indicator measurableSet_Iio]
  have hset : Set.Ioc (0:ℝ) 1 ∩ Set.Iio c = Set.Ioo 0 c := by
    ext x
    simp only [Set.mem_inter_iff, Set.mem_Ioc, Set.mem_Iio, Set.mem_Ioo]
    constructor
    · rintro ⟨⟨hx0, -⟩, hxc⟩
      exact ⟨hx0, hxc⟩
    · rintro ⟨hx0, hxc⟩
      exact ⟨⟨hx0, le_trans (le_of_lt hxc) h1⟩, hxc⟩
  rw [hset]
  simp [Real.volume_Ioo, ENNReal.toReal_ofReal h0]

/-- The indicator of `u < c` is interval-integrable on `[0, 1]`. -/
theorem intervalIntegrable_indicator_Iio (c : ℝ) :
    IntervalIntegrable (fun u => (Set.Iio c).indicator (fun _ => (1 : ℝ)) u)
      MeasureTheory.volume 0 1 := by
  rw [intervalIntegrable_iff]
  have hconst : MeasureTheory.IntegrableOn (fun _ => (1 : ℝ))
      (Set.uIoc (0:ℝ) 1) MeasureTheory.volume := by
    rw [MeasureTheory.integrableOn_const]
    right
    exact measure_Ioc_lt_top
  exact hconst.integrable.indicator measurableSet_Iio

/-- C4: for every continuous dose `d ≥ 0`, `discretize_dose` splits `d`
into its integer floor plus one Bernoulli draw with the fractional
remainder as success probability: each output equals `⌊d⌋` or `⌊d⌋ + 1`
(a nonnegative integer), and the expected value of the output over the
uniform variate equals `d` exactly. -/
theorem C4_discretize_dose_unbiased (d : ℝ) (hd : 0 ≤ d) :
    (∀ u : ℝ, (discretize_dose d u = ⌊d⌋ ∨ discretize_dose d u = ⌊d⌋ + 1)
        ∧ 0 ≤ discretize_dose d u)
    ∧ (∫ u in (0:ℝ)..1, ((discretize_dose d u : ℤ) : ℝ)) = d := by
  constructor
  · intro u
    have hfloor : (0 : ℤ) ≤ ⌊d⌋ := Int.floor_nonneg.mpr hd
    unfold discretize_dose
    by_cases h : u < d - ⌊d⌋
    · rw [if_pos h]
      exact ⟨Or.inr rfl, by omega⟩
    · rw [if_neg h]
      exact ⟨Or.inl (by ring), by omega⟩
  · rw [discretize_dose_eq_indicator d]
    rw [intervalIntegral.integral_add intervalIntegrable_const
      (intervalIntegrable_indicator_Iio (Int.fract d))]
    rw [intervalIntegral.integral_const,
      integral_indicator_Iio_unit (Int.fract d) (Int.fract_nonneg d)
        (Int.fract_lt_one d).le]
    simp [Int.floor_add_fract]

/-- Witness for C4 at the concrete dose `d = 3/2`. -/
theorem C4_witness :
    (∀ u : ℝ, (discretize_dose (3/2) u = ⌊(3/2 : ℝ)⌋
          ∨ discretize_dose (3/2) u = ⌊(3/2 : ℝ)⌋ + 1)
        ∧ 0 ≤ discretize_dose (3/2) u)
    ∧ (∫ u in (0:ℝ)..1, ((discretize_dose (3/2) u : ℤ) : ℝ)) = 3/2 :=
  C4_discretize_dose_unbiased (3/2) (by norm_num)

/-- Equal-length increments of `log ∘ Gamma` grow as the interval moves
right: convexity of the log-Gamma function (Bohr-Mollerup). -/
theorem logGamma_increment_le {a b c e : ℝ} (ha : 0 < a) (hc : 0 < c)
    (hab : a < b) (hac : a ≤ c) (hce : c < e) (hbe : b ≤ e)
    (hlen : b - a = e - c) :
    Real.log (Real.Gamma b) - Real.log (Real.Gamma a)
      ≤ Real.log (Real.Gamma e) - Real.log (Real.Gamma c) := by
  set f : ℝ → ℝ := Real.log ∘ Real.Gamma with hf
  have hcv : ConvexOn ℝ (Set.Ioi 0) f := Real.convexOn_log_Gamma
  have hb : (0:ℝ) < b := lt_trans ha hab
  have he : (0:ℝ) < e := lt_trans hc hce
  have hae : a < e := lt_of_lt_of_le hab hbe
  have step1 : (f b - f a) / (b - a) ≤ (f e - f a) / (e - a) :=
    hcv.secant_mono (Set.mem_Ioi.mpr ha) (Set.mem_Ioi.mpr hb)
      (Set.mem_Ioi.mpr he) hab.ne' hae.ne' hbe
  have step2 : (f a - f e) / (a - e) ≤ (f c - f e) / (c - e) :=
    hcv.secant_mono (Set.mem_Ioi.mpr he) (Set.mem_Ioi.mpr ha)
      (Set.mem_Ioi.mpr hc) hae.ne hce.ne hac
  have e2 : (f a - f e) / (a - e) = (f e - f a) / (e - a) := by
    rw [← neg_div_neg_eq]
    ring_nf
  have e3 : (f c - f e) / (c - e) = (f e - f c) / (e - c) := by
    rw [← neg_div_neg_eq]
    ring_nf
  rw [e2, e3] at step2
  have chain : (f b - f a) / (b - a) ≤ (f e - f c) / (e - c) :=
    le_trans step1 step2
  rw [← hlen] at chain
  have hba : (0:ℝ) < b - a := sub_pos.mpr hab
  have := (div_le_div_iff_of_pos_right hba).mp chain
  simpa [hf, Function.comp] using this

/-- The log-space complement is non-increasing in the dose for the fixed
model parameters. -/
theorem log_prob_complement_antitone (d1 d2 : ℝ) (h0 : 0 ≤ d1)
    (hlt : d1 < d2) :
    log_prob_complement d2 ALPHA BETA ≤ log_prob_complement d1 ALPHA BETA := by
  have hB : (0:ℝ) < BETA := by norm_num [BETA]
  have hA : (0:ℝ) < ALPHA := by norm_num [ALPHA]
  have inc : Real.log (Real.Gamma (BETA + d2)) - Real.log (Real.Gamma (BETA + d1))
      ≤ Real.log (Real.Gamma (ALPHA + BETA + d2))
        - Real.log (Real.Gamma (ALPHA + BETA + d1)) := by
    refine logGamma_increment_le (a := BETA + d1) (b := BETA + d2)
      (c := ALPHA + BETA + d1) (e := ALPHA + BETA + d2) ?_ ?_ ?_ ?_ ?_ ?_ ?_
    · linarith
    · linarith
    · linarith
    · linarith
    · linarith
    · linarith
    · ring
  unfold log_prob_complement gammaln
  linarith

/-- C2: with the fixed parameters `alpha = 0.04`, `beta = 0.055`,
`beta_binomial_infection_prob` is non-decreasing in the dose: for all
`0 ≤ d1 ≤ d2` the infection probability at `d1` is at most the infection
probability at `d2` (monotonicity of the Beta-Binomial survival
function). -/
theorem C2_infection_prob_monotone (d1 d2 : ℝ) (h0 : 0 ≤ d1) (h12 : d1 ≤ d2) :
    beta_binomial_infection_prob d1 ALPHA BETA
      ≤ beta_binomial_infection_prob d2 ALPHA BETA := by
  rcases eq_or_lt_of_le h12 with rfl | hlt
  · exact le_rfl
  · have key := log_prob_complement_antitone d1 d2 h0 hlt
    have hexp : Real.exp (log_prob_complement d2 ALPHA BETA)
        ≤ Real.exp (log_prob_complement d1 ALPHA BETA) :=
      Real.exp_le_exp.mpr key
    unfold beta_binomial_infection_prob
    exact min_le_min (max_le_max (by linarith) le_rfl) le_rfl

/-- Witness for C2 at the concrete doses `d1 = 0`, `d2 = 1`. -/
theorem C2_witness :
    beta_binomial_infection_prob 0 ALPHA BETA
      ≤ beta_binomial_infection_prob 1 ALPHA BETA :=
  C2_infection_prob_monotone 0 1 (by norm_num) (by norm_num)

/-- Pointwise over cells: an individual can only be ill if infected, and
the outcomes are `0`/`1` valued. -/
theorem ill_le_infected (cfg : SiteConfig) (s : RandomStreams) (dil : List ℝ)
    (meal : ℕ → ℝ) (k : ℕ) :
    ill cfg s dil meal k ≤ infected cfg s dil meal k := by
  unfold ill
  by_cases h : infected cfg s dil meal k = 1
  · rw [if_pos h, h]
    split
    · exact le_rfl
    · exact Nat.zero_le 1
  · rw [if_neg h]
    exact Nat.zero_le _

/-- A `Forall₂` relation between two maps of the same list holds when it
holds entrywise. -/
theorem forall₂_map_map {α β γ : Type} (R : β → γ → Prop) (l : List α)
    (f : α → β) (g : α → γ) (h : ∀ x ∈ l, R (f x) (g x)) :
    List.Forall₂ R (l.map f) (l.map g) := by
  induction l with
  | nil => exact List.Forall₂.nil
  | cons a t ih =>
    exact List.Forall₂.cons (h a (List.mem_cons_self a t))
      (ih fun x hx => h x (List.mem_cons_of_mem a hx))

/-- C3: in every result produced by `run_shellfish_qmra_advanced`, for
every scenario the illness count is at most the infection count, and the
illness count is `0` whenever the infection count is `0` (per individual,
an illness outcome of `1` implies an infection outcome of `1`). -/
theorem C3_illness_le_infections (cfg : SiteConfig)
    (data : List (Option ℝ)) (s : RandomStreams) (r : QmraResult)
    (h : run_shellfish_qmra_advanced cfg data s = some (Except.ok r)) :
    List.Forall₂ (fun il inf => il ≤ inf ∧ (inf = 0 → il = 0))
      r.illness_distribution r.infections_distribution := by
  unfold run_shellfish_qmra_advanced at h
  cases hecdf : sample_ecdf data cfg.iterations s.idxDil with
  | error e =>
    rw [hecdf] at h
    simp at h
  | ok dil =>
    rw [hecdf] at h
    cases hmeal : meal_sizes cfg s with
    | none =>
      rw [hmeal] at h
      simp at h
    | some meal =>
      rw [hmeal] at h
      simp only [Option.some.injEq, Except.ok.injEq] at h
      subst h
      refine forall₂_map_map _ _ _ _ ?_
      intro i hi
      constructor
      · exact Finset.sum_le_sum fun j hj => ill_le_infected cfg s dil meal _
      · intro hzero
        refine Finset.sum_eq_zero fun j hj => ?_
        have hinf : infected cfg s dil meal (i * cfg.num_people + j) = 0 :=
          (Finset.sum_eq_zero_iff.mp hzero) j hj
        unfold ill
        rw [if_neg (by omega)]

/-! ### Evaluation lemmas for the concrete runs -/

/-- At `u = 0` the lower hockey-stick branch yields the minimum. -/
theorem hockey_transform_at_zero (x0 x50 x100 pb : ℝ) :
    hockey_transform x0 x50 x100 pb 0 = x0 := by
  unfold hockey_transform hockey_lower
  rw [if_pos (by norm_num : (0:ℝ) ≤ 0.5)]
  norm_num

/-- With one iteration and effluent uniform `0`, the effluent array is the
single minimum value. -/
theorem effluent_conc_eval_one (cfg : SiteConfig) (s : RandomStreams)
    (hhockey : cfg.use_hockey_stick = true) (hit : cfg.iterations = 1)
    (hu : s.uEff 0 = 0) :
    effluent_conc cfg s = [cfg.effluent_min] := by
  unfold effluent_conc
  rw [hhockey]
  unfold sample_hockey_stick_concentration
  rw [hit]
  simp [List.range_succ, hu, hockey_transform_at_zero]

/-- Site concentration of the single scenario, for one iteration, zero log
removal and one dilution observation `w`. -/
theorem site_conc_eval_one (cfg : SiteConfig) (s : RandomStreams) (w : ℝ)
    (hhockey : cfg.use_hockey_stick = true) (hit : cfg.iterations = 1)
    (hu : s.uEff 0 = 0) (hlr : cfg.log_removal_wwtp = 0) :
    site_conc cfg s [w] 0 = cfg.effluent_min / w := by
  unfold site_conc treated_conc
  rw [effluent_conc_eval_one cfg s hhockey hit hu]
  simp [hlr, Real.rpow_zero]

/-- With one observation `w` the ECDF sample of a one-iteration run is
`[w]`, whatever the index stream. -/
theorem sample_ecdf_single (w : ℝ) (idx : ℕ → ℕ) :
    sample_ecdf [some w] 1 idx = Except.ok [w] := by
  simp [sample_ecdf, Nat.mod_one]

/-- In simple mode the meal-size grid is the fixed meal size. -/
theorem meal_sizes_simple (cfg : SiteConfig) (s : RandomStreams)
    (hmode : cfg.mode = "simple") :
    meal_sizes cfg s = some (fun _ => cfg.meal_size_fixed) := by
  unfold meal_sizes
  rw [hmode]
  simp

/-- Outside advanced variable-BAF mode the BAF grid is the fixed MHF. -/
theorem bafs_simple (cfg : SiteConfig) (s : RandomStreams)
    (hmode : cfg.mode = "simple") (k : ℕ) :
    bafs cfg s k = cfg.mhf_fixed := by
  unfold bafs
  rw [hmode]
  simp

/-- A simple-mode, one-iteration, one-person run with a single dilution
observation reduces to the single-cell outcome values. -/
theorem run_simple_one (cfg : SiteConfig) (w : ℝ) (s : RandomStreams)
    (hmode : cfg.mode = "simple") (hit : cfg.iterations = 1)
    (hP : cfg.num_people = 1) :
    run_shellfish_qmra_advanced cfg [some w] s
      = some (Except.ok
          { infections_distribution :=
              [infected cfg s [w] (fun _ => cfg.meal_size_fixed) 0]
            illness_distribution :=
              [ill cfg s [w] (fun _ => cfg.meal_size_fixed) 0] }) := by
  have hecdf : sample_ecdf [some w] cfg.iterations s.idxDil = Except.ok [w] := by
    rw [hit]
    exact sample_ecdf_single w s.idxDil
  unfold run_shellfish_qmra_advanced
  rw [hecdf, meal_sizes_simple cfg s hmode]
  have htotI : total_infections cfg s [w] (fun _ => cfg.meal_size_fixed) 0
      = infected cfg s [w] (fun _ => cfg.meal_size_fixed) 0 := by
    unfold total_infections
    rw [hP]
    simp
  have htotL : total_illness cfg s [w] (fun _ => cfg.meal_size_fixed) 0
      = ill cfg s [w] (fun _ => cfg.meal_size_fixed) 0 := by
    unfold total_illness
    rw [hP]
    simp
  rw [hit]
  simp [List.range_succ, htotI, htotL]

/-- At dose `1`, the log-space complement collapses to `log (beta / (alpha
+ beta)) = log (11/19)` via `Gamma (x + 1) = x * Gamma x`. -/
theorem log_prob_complement_one :
    log_prob_complement 1 ALPHA BETA = Real.log (11/19) := by
  unfold log_prob_complement gammaln ALPHA BETA
  have hab : (0.04:ℝ) + 0.055 = 0.095 := by norm_num
  rw [hab]
  have e1 : Real.Gamma ((0.055:ℝ) + 1) = 0.055 * Real.Gamma 0.055 :=
    Real.Gamma_add_one (by norm_num)
  have e2 : Real.Gamma ((0.095:ℝ) + 1) = 0.095 * Real.Gamma 0.095 :=
    Real.Gamma_add_one (by norm_num)
  rw [e1, e2]
  have g1 : (0:ℝ) < Real.Gamma 0.055 := Real.Gamma_pos_of_pos (by norm_num)
  have g2 : (0:ℝ) < Real.Gamma 0.095 := Real.Gamma_pos_of_pos (by norm_num)
  rw [Real.log_mul (by norm_num) g1.ne']
  rw [Real.log_mul (by norm_num) g2.ne']
  have hq : Real.log (11/19 : ℝ) = Real.log 0.055 - Real.log 0.095 := by
    rw [← Real.log_div (by norm_num) (by norm_num)]
    norm_num
  rw [hq]
  ring

/-- The infection probability at dose `1` is `alpha / (alpha + beta) = 8/19`. -/
theorem beta_binomial_infection_prob_one :
    beta_binomial_infection_prob 1 ALPHA BETA = 8/19 := by
  unfold beta_binomial_infection_prob
  rw [log_prob_complement_one, Real.exp_log (by norm_num)]
  norm_num

/-- The continuous dose of the single cell of a simple-mode, one-iteration
run with effluent uniform `0`, zero log removal and one dilution
observation `w`. -/
theorem doses_continuous_simple_one (cfg : SiteConfig) (s : RandomStreams)
    (w : ℝ) (hmode : cfg.mode = "simple") (hhockey : cfg.use_hockey_stick = true)
    (hit : cfg.iterations = 1) (hu : s.uEff 0 = 0)
    (hlr : cfg.log_removal_wwtp = 0) :
    doses_continuous cfg s [w] (fun _ => cfg.meal_size_fixed) 0
      = cfg.effluent_min / w * (cfg.meal_size_fixed / 1000) * cfg.mhf_fixed := by
  unfold doses_continuous
  rw [Nat.zero_div, site_conc_eval_one cfg s w hhockey hit hu hlr,
    bafs_simple cfg s hmode]

/-- Single-cell infection outcome of the zero-dose run: no infection. -/
theorem infected_cfgZero :
    infected cfgZero sBase [1] (fun _ => cfgZero.meal_size_fixed) 0 = 0 := by
  have hdose : doses_continuous cfgZero sBase [1]
      (fun _ => cfgZero.meal_size_fixed) 0 = 0 := by
    rw [doses_continuous_simple_one cfgZero sBase 1 rfl rfl rfl rfl rfl]
    show (0:ℝ) / 1 * (50 / 1000) * 20 = 0
    norm_num
  have hdisc : doses_discrete cfgZero sBase [1]
      (fun _ => cfgZero.meal_size_fixed) 0 = 0 := by
    unfold doses_discrete
    rw [hdose]
    show (⌊(0:ℝ)⌋ + if (1/2 : ℝ) < 0 - ⌊(0:ℝ)⌋ then 1 else 0) = 0
    norm_num
  unfold infected p_infection
  rw [hdisc, Int.cast_zero, beta_binomial_infection_prob_zero]
  rw [if_neg (by norm_num [sBase] : ¬ sBase.uInf 0 < (0:ℝ))]

/-- Single-cell illness outcome of the zero-dose run: no illness. -/
theorem ill_cfgZero :
    ill cfgZero sBase [1] (fun _ => cfgZero.meal_size_fixed) 0 = 0 := by
  unfold ill
  rw [infected_cfgZero]
  norm_num

/-- The zero-dose run evaluates to the all-zero result. -/
theorem run_cfgZero :
    run_shellfish_qmra_advanced cfgZero [some 1] sBase
      = some (Except.ok
          { infections_distribution := [0], illness_distribution := [0] }) := by
  rw [run_simple_one cfgZero 1 sBase rfl rfl rfl, infected_cfgZero, ill_cfgZero]

/-- When the single cell receives continuous dose exactly `1` and the
discretization uniform is `1/2`, the infection probability of the cell is
`8/19`. -/
theorem p_infection_one_cell (cfg : SiteConfig) (s : RandomStreams) (w : ℝ)
    (hmode : cfg.mode = "simple") (hhockey : cfg.use_hockey_stick = true)
    (hit : cfg.iterations = 1) (hu : s.uEff 0 = 0)
    (hlr : cfg.log_removal_wwtp = 0)
    (hdose : cfg.effluent_min / w * (cfg.meal_size_fixed / 1000) * cfg.mhf_fixed = 1)
    (hud : s.uDisc 0 = 1/2) :
    p_infection cfg s [w] (fun _ => cfg.meal_size_fixed) 0 = 8/19 := by
  unfold p_infection doses_discrete
  rw [doses_continuous_simple_one cfg s w hmode hhockey hit hu hlr, hdose, hud]
  have hone : discretize_dose 1 (1/2) = 1 := by
    unfold discretize_dose
    norm_num
  rw [hone, Int.cast_one, beta_binomial_infection_prob_one]

/-- The bad-ordering run (`effluent_min = 2 > 1 = effluent_median`)
evaluates to the all-zero result: no exception is raised. -/
theorem run_cfgBadOrder :
    run_shellfish_qmra_advanced cfgBadOrder [some 1] sBase
      = some (Except.ok
          { infections_distribution := [0], illness_distribution := [0] }) := by
  have hp : p_infection cfgBadOrder sBase [1]
      (fun _ => cfgBadOrder.meal_size_fixed) 0 = 8/19 :=
    p_infection_one_cell cfgBadOrder sBase 1 rfl rfl rfl rfl rfl
      (by show (2:ℝ) / 1 * (50 / 1000) * 10 = 1; norm_num) rfl
  have hinf : infected cfgBadOrder sBase [1]
      (fun _ => cfgBadOrder.meal_size_fixed) 0 = 0 := by
    unfold infected
    rw [hp, if_neg (by norm_num [sBase] : ¬ sBase.uInf 0 < (8/19 : ℝ))]
  have hill : ill cfgBadOrder sBase [1]
      (fun _ => cfgBadOrder.meal_size_fixed) 0 = 0 := by
    unfold ill
    rw [hinf]
    norm_num
  rw [run_simple_one cfgBadOrder 1 sBase rfl rfl rfl, hinf, hill]

/-- The dose-one run with infection uniform `1/10` (below `8/19`) and
illness uniform `0` (below `0.6`) produces one infection and one illness. -/
theorem run_cfgDoseOne_low :
    run_shellfish_qmra_advanced cfgDoseOne [some 1] sInfLow
      = some (Except.ok
          { infections_distribution := [1], illness_distribution := [1] }) := by
  have hp : p_infection cfgDoseOne sInfLow [1]
      (fun _ => cfgDoseOne.meal_size_fixed) 0 = 8/19 :=
    p_infection_one_cell cfgDoseOne sInfLow 1 rfl rfl rfl rfl rfl
      (by show (1:ℝ) / 1 * (50 / 1000) * 20 = 1; norm_num) rfl
  have hinf : infected cfgDoseOne sInfLow [1]
      (fun _ => cfgDoseOne.meal_size_fixed) 0 = 1 := by
    unfold infected
    rw [hp, if_pos (by norm_num [sInfLow, sBase] : sInfLow.uInf 0 < (8/19 : ℝ))]
  have hrank : infected_rank cfgDoseOne sInfLow [1]
      (fun _ => cfgDoseOne.meal_size_fixed) 0 = 0 := by
    unfold infected_rank
    simp
  have hill : ill cfgDoseOne sInfLow [1]
      (fun _ => cfgDoseOne.meal_size_fixed) 0 = 1 := by
    unfold ill
    rw [if_pos hinf, hrank]
    rw [if_pos (by norm_num [sInfLow, sBase, PR_ILLNESS_GIVEN_INFECTION] :
      sInfLow.uIll 0 < PR_ILLNESS_GIVEN_INFECTION)]
  rw [run_simple_one cfgDoseOne 1 sInfLow rfl rfl rfl, hinf, hill]

/-- The same run with infection uniform `9/10` (above `8/19`) produces no
infection and no illness. -/
theorem run_cfgDoseOne_high :
    run_shellfish_qmra_advanced cfgDoseOne [some 1] sInfHigh
      = some (Except.ok
          { infections_distribution := [0], illness_distribution := [0] }) := by
  have hp : p_infection cfgDoseOne sInfHigh [1]
      (fun _ => cfgDoseOne.meal_size_fixed) 0 = 8/19 :=
    p_infection_one_cell cfgDoseOne sInfHigh 1 rfl rfl rfl rfl rfl
      (by show (1:ℝ) / 1 * (50 / 1000) * 20 = 1; norm_num) rfl
  have hinf : infected cfgDoseOne sInfHigh [1]
      (fun _ => cfgDoseOne.meal_size_fixed) 0 = 0 := by
    unfold infected
    rw [hp, if_neg (by norm_num [sInfHigh, sBase] : ¬ sInfHigh.uInf 0 < (8/19 : ℝ))]
  have hill : ill cfgDoseOne sInfHigh [1]
      (fun _ => cfgDoseOne.meal_size_fixed) 0 = 0 := by
    unfold ill
    rw [hinf]
    norm_num
  rw [run_simple_one cfgDoseOne 1 sInfHigh rfl rfl rfl, hinf, hill]

/-! ### Determinism with respect to the consumed random draws -/

/-- Maps over `List.range` only depend on the function values below the
bound. -/
theorem map_range_congr {α : Type} (n : ℕ) (f g : ℕ → α)
    (h : ∀ k < n, f k = g k) :
    (List.range n).map f = (List.range n).map g :=
  List.map_congr_left (fun k hk => h k (List.mem_range.mp hk))

/-- The rejection loop only reads candidate draws below `i + fuel`. -/
theorem meal_loop_congr (cA cB : ℕ → ℝ) :
    ∀ fuel i need, (∀ k < i + fuel, cA k = cB k) →
      meal_loop cA i fuel need = meal_loop cB i fuel need := by
  intro fuel
  induction fuel with
  | zero =>
    intro i need h
    match need with
    | 0 => rfl
    | need + 1 => rfl
  | succ fuel ih =>
    intro i need h
    match need with
    | 0 => rfl
    | need + 1 =>
      have hi : cA i = cB i := h i (by omega)
      have hrest : ∀ k < (i + 1) + fuel, cA k = cB k := by
        intro k hk
        exact h k (by omega)
      simp only [meal_loop, hi, ih (i + 1) need hrest, ih (i + 1) (need + 1) hrest]

/-- Every individual outcome is zero or one. -/
theorem infected_le_one (cfg : SiteConfig) (s : RandomStreams) (dil : List ℝ)
    (meal : ℕ → ℝ) (k : ℕ) : infected cfg s dil meal k ≤ 1 := by
  unfold infected
  split
  · exact le_rfl
  · exact Nat.zero_le 1

/-- The rank of a cell among the infected cells never exceeds the cell
index. -/
theorem infected_rank_le (cfg : SiteConfig) (s : RandomStreams) (dil : List ℝ)
    (meal : ℕ → ℝ) (k : ℕ) : infected_rank cfg s dil meal k ≤ k := by
  unfold infected_rank
  calc ∑ m ∈ Finset.range k, infected cfg s dil meal m
      ≤ ∑ _m ∈ Finset.range k, 1 :=
        Finset.sum_le_sum fun m _ => infected_le_one cfg s dil meal m
    _ = k := by simp

/-- C9 (amended): the run is a pure function of the declared inputs and of
the values the implicit global random state yields on the finite prefix
the run consumes (whose length is determined by `iterations` and
`num_people`); two invocations with identical inputs and identical
consumed draws produce identical outputs. -/
theorem C9_amended_prefix_determinism (cfg : SiteConfig)
    (data : List (Option ℝ)) (sA sB : RandomStreams)
    (hEff : ∀ k < cfg.iterations, sA.uEff k = sB.uEff k)
    (hTri : ∀ k < cfg.iterations, sA.triEff k = sB.triEff k)
    (hIdx : ∀ k < cfg.iterations, sA.idxDil k = sB.idxDil k)
    (hFuel : sA.mealFuel = sB.mealFuel)
    (hMealC : ∀ k < sA.mealFuel, sA.mealCand k = sB.mealCand k)
    (hBaf : ∀ k < cfg.iterations * cfg.num_people, sA.nBaf k = sB.nBaf k)
    (hDisc : ∀ k < cfg.iterations * cfg.num_people, sA.uDisc k = sB.uDisc k)
    (hInf : ∀ k < cfg.iterations * cfg.num_people, sA.uInf k = sB.uInf k)
    (hIll : ∀ k < cfg.iterations * cfg.num_people, sA.uIll k = sB.uIll k) :
    run_shellfish_qmra_advanced cfg data sA
      = run_shellfish_qmra_advanced cfg data sB := by
  have heff : effluent_conc cfg sA = effluent_conc cfg sB := by
    unfold effluent_conc sample_hockey_stick_concentration
    split
    · exact map_range_congr _ _ _ (fun k hk => by rw [hEff k hk])
    · exact map_range_congr _ _ _ hTri
  have htreated : treated_conc cfg sA = treated_conc cfg sB := by
    unfold treated_conc
    rw [heff]
  have hecdf : sample_ecdf data cfg.iterations sA.idxDil
      = sample_ecdf data cfg.iterations sB.idxDil := by
    by_cases hc : (data.filterMap id).isEmpty
    · simp [sample_ecdf, hc]
    · simp only [sample_ecdf, hc, Bool.false_eq_true, if_false]
      rw [map_range_congr _ _ _ (fun k hk => by rw [hIdx k hk])]
  have hmeal : meal_sizes cfg sA = meal_sizes cfg sB := by
    unfold meal_sizes sample_meal_size_loglogistic
    split
    · rw [hFuel, meal_loop_congr sA.mealCand sB.mealCand sB.mealFuel 0 _
        (fun k hk => hMealC k (by omega))]
    · rfl
  have hbafs : bafs cfg sA = bafs cfg sB := by
    funext k
    unfold bafs sample_baf
    split
    · rw [map_range_congr _ _ _ (fun m hm => by rw [hBaf m hm])]
    · rfl
  have hsite : ∀ dil i, site_conc cfg sA dil i = site_conc cfg sB dil i := by
    intro dil i
    unfold site_conc
    rw [htreated]
  have hdc : ∀ dil meal k, doses_continuous cfg sA dil meal k
      = doses_continuous cfg sB dil meal k := by
    intro dil meal k
    unfold doses_continuous
    rw [hsite, hbafs]
  have hinf : ∀ dil meal k, k < cfg.iterations * cfg.num_people →
      infected cfg sA dil meal k = infected cfg sB dil meal k := by
    intro dil meal k hk
    unfold infected p_infection doses_discrete
    rw [hdc, hDisc k hk, hInf k hk]
  have hill : ∀ dil meal k, k < cfg.iterations * cfg.num_people →
      ill cfg sA dil meal k = ill cfg sB dil meal k := by
    intro dil meal k hk
    have hrank : infected_rank cfg sA dil meal k
        = infected_rank cfg sB dil meal k := by
      unfold infected_rank
      exact Finset.sum_congr rfl fun m hm =>
        hinf dil meal m (lt_trans (Finset.mem_range.mp hm) hk)
    unfold ill
    rw [hinf dil meal k hk, hrank, hIll _ (lt_of_le_of_lt
      (infected_rank_le cfg sB dil meal k) hk)]
  have hcell : ∀ i j, i < cfg.iterations → j < cfg.num_people →
      i * cfg.num_people + j < cfg.iterations * cfg.num_people := by
    intro i j hi hj
    calc i * cfg.num_people + j < i * cfg.num_people + cfg.num_people := by omega
      _ = (i + 1) * cfg.num_people := by ring
      _ ≤ cfg.iterations * cfg.num_people :=
          Nat.mul_le_mul_right _ (by omega)
  have htotI : ∀ dil meal i, i < cfg.iterations →
      total_infections cfg sA dil meal i = total_infections cfg sB dil meal i := by
    intro dil meal i hi
    unfold total_infections
    exact Finset.sum_congr rfl fun j hj =>
      hinf dil meal _ (hcell i j hi (Finset.mem_range.mp hj))
  have htotL : ∀ dil meal i, i < cfg.iterations →
      total_illness cfg sA dil meal i = total_illness cfg sB dil meal i := by
    intro dil meal i hi
    unfold total_illness
    exact Finset.sum_congr rfl fun j hj =>
      hill dil meal _ (hcell i j hi (Finset.mem_range.mp hj))
  unfold run_shellfish_qmra_advanced
  rw [hecdf, hmeal]
  cases sample_ecdf data cfg.iterations sB.idxDil with
  | error e => rfl
  | ok dil =>
    cases meal_sizes cfg sB with
    | none => rfl
    | some meal =>
      simp only [Option.some.injEq, Except.ok.injEq, QmraResult.mk.injEq]
      exact ⟨map_range_congr _ _ _ (htotI dil meal),
        map_range_congr _ _ _ (htotL dil meal)⟩

/-- Witness for C3 on the concrete zero-dose run: both scenario counts are
zero, satisfying the invariant. -/
theorem C3_witness :
    run_shellfish_qmra_advanced cfgZero [some 1] sBase
        = some (Except.ok
            { infections_distribution := [0], illness_distribution := [0] })
      ∧ List.Forall₂ (fun il inf => il ≤ inf ∧ (inf = 0 → il = 0)) [0] [0] :=
  ⟨run_cfgZero,
    C3_illness_le_infections cfgZero [some 1] sBase
      { infections_distribution := [0], illness_distribution := [0] } run_cfgZero⟩

/-- C8 counterexample: invoked with `effluent_min = 2 > 1 = effluent_median`
(and every other input valid), `run_shellfish_qmra_advanced` does not fail:
it runs to completion and returns a result, so invalid effluent ordering is
not validated at all, contradicting the claim that such input fails fast
with a descriptive error. -/
theorem C8_counterexample :
    run_shellfish_qmra_advanced cfgBadOrder [some 1] sBase
      = some (Except.ok
          { infections_distribution := [0], illness_distribution := [0] }) :=
  run_cfgBadOrder

/-- C8 (amended): `run_shellfish_qmra_advanced` itself validates nothing
except what `sample_ecdf` checks: when the cleaned dilution set is empty it
surfaces the descriptive `ValueError` of `sample_ecdf` to the caller
(raised only after the effluent draws of step 1 have been taken); other
invalid inputs (non-positive bounds, `min ≥ median`, `iterations ≤ 0`) are
not checked by this function. -/
theorem C8_amended_empty_dilution_error (cfg : SiteConfig)
    (data : List (Option ℝ)) (s : RandomStreams)
    (hdata : data.filterMap id = []) :
    run_shellfish_qmra_advanced cfg data s
      = some (Except.error "No valid dilution data provided") := by
  have h : sample_ecdf data cfg.iterations s.idxDil
      = Except.error "No valid dilution data provided" := by
    simp [sample_ecdf, hdata]
  unfold run_shellfish_qmra_advanced
  rw [h]

/-- Witness for the amended C8: the all-missing observation set `[none]`
produces the descriptive error. -/
theorem C8_amended_witness :
    run_shellfish_qmra_advanced cfgZero [none] sBase
      = some (Except.error "No valid dilution data provided") :=
  C8_amended_empty_dilution_error cfgZero [none] sBase (by simp)

/-- C9 counterexample: two invocations of `run_shellfish_qmra_advanced`
with identical declared inputs produce different outputs when the implicit
global random state differs, so the output is not a function of the
declared interface inputs: the public interface accepts no injectable
random source and the core does assume implicit global random state,
contradicting the claim. -/
theorem C9_counterexample :
    run_shellfish_qmra_advanced cfgDoseOne [some 1] sInfLow
      ≠ run_shellfish_qmra_advanced cfgDoseOne [some 1] sInfHigh := by
  rw [run_cfgDoseOne_low, run_cfgDoseOne_high]
  simp

/-- Witness for the amended C9: altering the global stream only at
positions beyond the consumed prefix leaves the output unchanged. -/
theorem C9_amended_witness :
    run_shellfish_qmra_advanced cfgZero [some 1] sBase
      = run_shellfish_qmra_advanced cfgZero [some 1] sVariant := by
  refine C9_amended_prefix_determinism cfgZero [some 1] sBase sVariant
    ?_ ?_ ?_ rfl ?_ ?_ ?_ ?_ ?_
  · intro k hk
    rfl
  · intro k hk
    rfl
  · intro k hk
    rfl
  · intro k hk
    exact absurd hk (Nat.not_lt_zero k)
  · intro k hk
    rfl
  · intro k hk
    rfl
  · intro k hk
    have hk1 : k < 1 := hk
    have : k = 0 := by omega
    subst this
    rfl
  · intro k hk
    rfl

end ShellfishQmra
